import Mathlib

/-!
Verification of the sync reconciliation engine and encrypted
content-addressing layer of the `obsidian-fit` plugin.

The embedding follows the TypeScript sources:
* `encryption.ts` (path encryption: deflate → AES-CTR with all-zero IV →
  base64url; content encryption: AES-GCM with random IV),
* `fitTypes.ts` (the change / clash / conflict data model),
* `fit.ts` (change detection, clash classification, GitHub tree/blob access),
* `fitSync.ts` (pre-sync classification, conflict resolution, sync
  orchestration).

External primitives (AES keystreams, zlib deflate/inflate, the GitHub API,
the vault filesystem) are modelled as parameters: an `Env` structure supplies
the results of remote and filesystem calls, AES-CTR is modelled as the XOR of
the plaintext with an arbitrary keystream (which is exactly what CTR mode
computes for a fixed key and counter), and deflate/inflate are arbitrary
functions constrained only by their round-trip contract.  Stateful code is
embedded in a small state monad `M` that records a trace of the external
calls made, so that claims about which calls happen (and in which order) can
be stated and proved.
-/

/-! ## Generic list helpers (own versions, used to model JS array indexing) -/

/-- Option-valued indexing into a list, mirroring `xs[i]` bounds-checked. -/
def nth? {α : Type} : List α → Nat → Option α
  | [], _ => none
  | a :: _, 0 => some a
  | _ :: rest, n + 1 => nth? rest n

/-- Indexing with a default, mirroring JS `xs[i]` at a known-valid index. -/
def nthD {α : Type} (l : List α) (i : Nat) (d : α) : α :=
  match l, i with
  | [], _ => d
  | a :: _, 0 => a
  | _ :: rest, n + 1 => nthD rest n d

theorem nthD_of_nth? {α : Type} {l : List α} {i : Nat} {a : α} (d : α)
    (h : nth? l i = some a) : nthD l i d = a := by
  induction l generalizing i with
  | nil => simp [nth?] at h
  | cons x rest ih =>
    cases i with
    | zero => simp [nth?] at h; simp [nthD, h]
    | succ n => simp [nth?] at h; simpa [nthD] using ih h

theorem nth?_map {α β : Type} (f : α → β) (l : List α) (i : Nat) :
    nth? (l.map f) i = (nth? l i).map f := by
  induction l generalizing i with
  | nil => simp [nth?]
  | cons x rest ih =>
    cases i with
    | zero => simp [nth?]
    | succ n => simpa [nth?] using ih n

theorem mem_iff_nth? {α : Type} {l : List α} {a : α} :
    a ∈ l ↔ ∃ i, nth? l i = some a := by
  induction l with
  | nil => simp [nth?]
  | cons x rest ih =>
    constructor
    · intro h
      rcases List.mem_cons.mp h with h | h
      · exact ⟨0, by simp [nth?, h]⟩
      · rcases ih.mp h with ⟨i, hi⟩
        exact ⟨i + 1, by simpa [nth?] using hi⟩
    · rintro ⟨i, hi⟩
      cases i with
      | zero => simp [nth?] at hi; simp [hi]
      | succ n =>
        simp only [nth?] at hi
        exact List.mem_cons.mpr (Or.inr (ih.mpr ⟨n, hi⟩))

theorem nodup_nth?_inj {α : Type} {l : List α} (hl : l.Nodup) {i j : Nat} {a : α}
    (hi : nth? l i = some a) (hj : nth? l j = some a) : i = j := by
  induction l generalizing i j with
  | nil => simp [nth?] at hi
  | cons x rest ih =>
    rcases List.nodup_cons.mp hl with ⟨hx, hrest⟩
    cases i with
    | zero =>
      cases j with
      | zero => rfl
      | succ m =>
        simp [nth?] at hi hj
        exact absurd (mem_iff_nth?.mpr ⟨m, hj⟩) (by simpa [hi] using hx)
    | succ n =>
      cases j with
      | zero =>
        simp [nth?] at hi hj
        exact absurd (mem_iff_nth?.mpr ⟨n, hi⟩) (by simpa [hj] using hx)
      | succ m =>
        simp only [nth?] at hi hj
        exact congrArg (· + 1) (ih hrest hi hj)

/-- Association-list lookup, mirroring JS object property access `m[p]`
(JS object keys are unique, so the first hit is the only hit). -/
def shaLookup (p : String) : List (String × String) → Option String
  | [] => none
  | pr :: rest => if pr.1 = p then some pr.2 else shaLookup p rest

theorem shaLookup_of_mem_nodup {l : List (String × String)} {p v : String}
    (hnd : (l.map Prod.fst).Nodup) (h : (p, v) ∈ l) : shaLookup p l = some v := by
  induction l with
  | nil => simp at h
  | cons pr rest ih =>
    rw [List.map_cons] at hnd
    have hx : pr.1 ∉ rest.map Prod.fst := (List.nodup_cons.mp hnd).1
    have hrest : (rest.map Prod.fst).Nodup := (List.nodup_cons.mp hnd).2
    rcases List.mem_cons.mp h with h | h
    · simp [shaLookup, ← h]
    · have hne : pr.1 ≠ p := by
        intro he
        exact hx (by simpa [he] using List.mem_map_of_mem Prod.fst h)
      simp [shaLookup, hne, ih hrest h]

theorem shaLookup_isSome_of_mem {l : List (String × String)} {p v : String}
    (h : (p, v) ∈ l) : shaLookup p l ≠ none := by
  induction l with
  | nil => simp at h
  | cons pr rest ih =>
    rcases List.mem_cons.mp h with h | h
    · simp [shaLookup, ← h]
    · by_cases he : pr.1 = p
      · simp [shaLookup, he]
      · simpa [shaLookup, he] using ih h

/-- First index of a path in a list, mirroring JS `Array.indexOf` with `-1`
encoded as `none`. -/
def indexOfPath (p : String) : List String → Option Nat
  | [] => none
  | q :: rest => if q = p then some 0 else (indexOfPath p rest).map (· + 1)

theorem indexOfPath_some {l : List String} {p : String} {i : Nat}
    (h : indexOfPath p l = some i) : nth? l i = some p := by
  induction l generalizing i with
  | nil => simp [indexOfPath] at h
  | cons q rest ih =>
    by_cases he : q = p
    · simp [indexOfPath, he] at h
      simp [← h, nth?, he]
    · simp [indexOfPath, he] at h
      rcases h with ⟨j, hj, hji⟩
      subst hji
      simpa [nth?] using ih hj

theorem indexOfPath_of_mem {l : List String} {p : String} (h : p ∈ l) :
    ∃ i, indexOfPath p l = some i := by
  induction l with
  | nil => simp at h
  | cons q rest ih =>
    by_cases he : q = p
    · exact ⟨0, by simp [indexOfPath, he]⟩
    · rcases ih (by rcases List.mem_cons.mp h with h | h; exact absurd h.symm he; exact h) with ⟨i, hi⟩
      exact ⟨i + 1, by simp [indexOfPath, he, hi]⟩

/-- Pairs each element with its index, mirroring JS `Array.map((x, i) => …)`. -/
def pathsWithIndex : List String → Nat → List (String × Nat)
  | [], _ => []
  | p :: rest, i => (p, i) :: pathsWithIndex rest (i + 1)

theorem mem_pathsWithIndex {l : List String} {k : Nat} {p : String} {i : Nat} :
    (p, i) ∈ pathsWithIndex l k ↔ ∃ j, i = k + j ∧ nth? l j = some p := by
  induction l generalizing k with
  | nil => simp [pathsWithIndex, nth?]
  | cons q rest ih =>
    simp only [pathsWithIndex, List.mem_cons]
    constructor
    · rintro (h | h)
      · rcases Prod.mk.injEq .. ▸ h with ⟨hp, hi⟩
        exact ⟨0, by simp [hi], by simp [nth?, hp.symm]⟩
      · rcases (ih (k := k + 1)).mp h with ⟨j, hj, hnth⟩
        exact ⟨j + 1, by omega, by simpa [nth?] using hnth⟩
    · rintro ⟨j, hj, hnth⟩
      cases j with
      | zero =>
        left
        simp [nth?] at hnth
        simp [hnth, hj]
      | succ m =>
        right
        refine (ih (k := k + 1)).mpr ⟨m, by omega, ?_⟩
        simpa [nth?] using hnth

theorem pathsWithIndex_map_fst (l : List String) (k : Nat) :
    (pathsWithIndex l k).map Prod.fst = l := by
  induction l generalizing k with
  | nil => rfl
  | cons q rest ih => simp [pathsWithIndex, ih]

/-! ## Data model (`fitTypes.ts`, `fit.ts`) -/

/-- Local change vocabulary (`LocalFileStatus` in `fitTypes.ts`). -/
inductive LocalFileStatus where
  | deleted
  | created
  | changed
deriving DecidableEq

/-- Remote change vocabulary (`RemoteChangeType` in `fitTypes.ts`). -/
inductive RemoteChangeType where
  | ADDED
  | MODIFIED
  | REMOVED
deriving DecidableEq

/-- A local change, `LocalChange` in `fitTypes.ts`. -/
structure LocalChange where
  path : String
  status : LocalFileStatus
deriving DecidableEq

/-- A remote change, `RemoteChange` in `fitTypes.ts` (`currentSha?` optional). -/
structure RemoteChange where
  path : String
  status : RemoteChangeType
  currentSha : Option String
deriving DecidableEq

/-- A path changed on both sides, `ClashStatus` in `fitTypes.ts`. -/
structure ClashStatus where
  path : String
  localStatus : LocalFileStatus
  remoteStatus : RemoteChangeType
deriving DecidableEq

/-- Audit record of a local mutation, `FileOpRecord` in `fitTypes.ts`. -/
structure FileOpRecord where
  path : String
  status : LocalFileStatus
deriving DecidableEq

/-- Result of resolving one clash, `ConflictResolutionResult` in `fitTypes.ts`. -/
structure ConflictResolutionResult where
  path : String
  noDiff : Bool
  fileOp : Option FileOpRecord
deriving DecidableEq

/-- The two variants of `ConflictReport` in `fitTypes.ts`. -/
inductive ConflictReport where
  | utf8 (path localContent remoteContent : String)
  | binary (path remoteContent : String)
deriving DecidableEq

/-- The `resolutionStrategy` discriminant of a `ConflictReport`. -/
def resolutionStrategy : ConflictReport → String
  | .utf8 _ _ _ => "utf-8"
  | .binary _ _ => "binary"

/-- The `remoteContent` field of a `ConflictReport`. -/
def reportRemoteContent : ConflictReport → String
  | .utf8 _ _ r => r
  | .binary _ r => r

/-- Git tree entry type (`type` field of `TreeNode` in `fit.ts`). -/
inductive NodeType where
  | blob
  | tree
  | commit
deriving DecidableEq

/-- A git tree entry, `TreeNode` in `fit.ts`; `sha = none` models the `null`
deletion sentinel. -/
structure TreeNode where
  path : String
  mode : Option String
  type : Option NodeType
  sha : Option String
deriving DecidableEq

/-- Aggregated remote state, `RemoteUpdate` in `fitTypes.ts`; fingerprint maps
(JS objects) are modelled as association lists. -/
structure RemoteUpdate where
  remoteChanges : List RemoteChange
  remoteTreeSha : List (String × String)
  latestRemoteCommitSha : String
  clashedFiles : List ClashStatus
deriving DecidableEq

/-- Pending local changes plus parent commit, `LocalUpdate` in `fitTypes.ts`. -/
structure LocalUpdate where
  localChanges : List LocalChange
  parentCommitSha : String
deriving DecidableEq

/-- The persisted snapshot held by `Fit` (`localSha`, `lastFetchedCommitSha`,
`lastFetchedRemoteSha` loaded from `LocalStores` in `fit.ts`). -/
structure FitState where
  localSha : List (String × String)
  lastFetchedCommitSha : Option String
  lastFetchedRemoteSha : List (String × String)

/-- Result of `FitPush.pushChangedFilesToRemote` as consumed by `fitSync.ts`. -/
structure PushResult where
  pushedChanges : List LocalChange
  lastFetchedCommitSha : String
  lastFetchedRemoteSha : List (String × String)
deriving DecidableEq

/-- The six values of `PreSyncCheckResultType` in `fitSync.ts`. -/
inductive SyncStatus where
  | inSync
  | onlyLocalChanged
  | onlyRemoteChanged
  | onlyRemoteCommitShaChanged
  | localAndRemoteChangesCompatible
  | localAndRemoteChangesClashed
deriving DecidableEq

/-- `PreSyncCheckResult` in `fitSync.ts`: either bare `inSync`, or a non-inSync
status together with the computed remote update, local changes and local tree. -/
inductive PreSyncCheckResult where
  | inSync
  | other (status : SyncStatus) (remoteUpdate : RemoteUpdate)
      (localChanges : List LocalChange) (localTreeSha : List (String × String))
deriving DecidableEq

/-! ## Path encryption (`encryption.ts`)

`encryptPath` deflates the UTF-8 bytes of the path, encrypts with AES-CTR
using the fixed all-zero 16-byte IV, and base64url-encodes the result;
`decryptPath` is the inverse.  AES-CTR with a fixed key and counter XORs the
plaintext with a fixed keystream, so the cipher step is modelled as XOR with
an arbitrary keystream `ks`; deflate/inflate (the external `pako` library)
are parameters constrained by their round-trip contract.  Paths are
represented by their UTF-8 byte lists. -/

/-- XOR of a byte list with the CTR keystream starting at offset `i`.
For a fixed key and the fixed all-zero counter this is exactly what
`crypto.subtle.encrypt({name: 'AES-CTR', counter: IV, length: 64}, …)`
computes, and decryption is the same XOR. -/
def ctrXor (ks : Nat → Nat) : Nat → List Nat → List Nat
  | _, [] => []
  | i, b :: rest => (b ^^^ ks i) :: ctrXor ks (i + 1) rest

theorem ctrXor_ctrXor (ks : Nat → Nat) : ∀ (i : Nat) (l : List Nat),
    ctrXor ks i (ctrXor ks i l) = l := by
  intro i l
  induction l generalizing i with
  | nil => rfl
  | cons b rest ih => simp [ctrXor, Nat.xor_cancel_right, ih]

theorem xor_lt_256 {a b : Nat} (ha : a < 256) (hb : b < 256) : a ^^^ b < 256 := by
  have h : Nat.bitwise bne a b < 2 ^ 8 :=
    Nat.bitwise_lt_two_pow (n := 8) (by norm_num at ha ⊢; omega) (by norm_num at hb ⊢; omega)
  simpa [HXor.hXor, Xor.xor, Nat.xor] using h

theorem ctrXor_lt (ks : Nat → Nat) (hks : ∀ j, ks j < 256) :
    ∀ (i : Nat) (l : List Nat), (∀ b ∈ l, b < 256) →
      ∀ b ∈ ctrXor ks i l, b < 256 := by
  intro i l
  induction l generalizing i with
  | nil => intro _ b hb; simp [ctrXor] at hb
  | cons x rest ih =>
    intro hall b hb
    rcases List.mem_cons.mp hb with h | h
    · subst h
      exact xor_lt_256 (hall x (by simp)) (hks i)
    · exact ih (i + 1) (fun c hc => hall c (by simp [hc])) b h

/-- Converts a byte list to base64 sextets without padding, mirroring `btoa`
followed by stripping trailing `=` in `arrayBufferToBase64Url`. -/
def toSextets : List Nat → List Nat
  | [] => []
  | [b1] => [b1 / 4, b1 % 4 * 16]
  | [b1, b2] => [b1 / 4, b1 % 4 * 16 + b2 / 16, b2 % 16 * 4]
  | b1 :: b2 :: b3 :: rest =>
      b1 / 4 :: (b1 % 4 * 16 + b2 / 16) :: (b2 % 16 * 4 + b3 / 64) :: b3 % 64 ::
        toSextets rest

/-- Converts unpadded base64 sextets back to bytes, mirroring `atob` in
`base64UrlToArrayBuffer` on unpadded input. -/
def fromSextets : List Nat → List Nat
  | s1 :: s2 :: s3 :: s4 :: rest =>
      (s1 * 4 + s2 / 16) :: (s2 % 16 * 16 + s3 / 4) :: (s3 % 4 * 64 + s4) ::
        fromSextets rest
  | [s1, s2] => [s1 * 4 + s2 / 16]
  | [s1, s2, s3] => [s1 * 4 + s2 / 16, s2 % 16 * 16 + s3 / 4]
  | _ => []

theorem fromSextets_toSextets : ∀ l : List Nat, (∀ b ∈ l, b < 256) →
    fromSextets (toSextets l) = l := by
  intro l
  induction l using toSextets.induct with
  | case1 => intro _; rfl
  | case2 b1 =>
    intro h
    have hb1 : b1 < 256 := h b1 (by simp)
    simp only [toSextets, fromSextets, List.cons.injEq, and_true]
    omega
  | case3 b1 b2 =>
    intro h
    have hb1 : b1 < 256 := h b1 (by simp)
    have hb2 : b2 < 256 := h b2 (by simp)
    simp only [toSextets, fromSextets, List.cons.injEq, and_true]
    exact ⟨by omega, by omega⟩
  | case4 b1 b2 b3 rest ih =>
    intro h
    have hb1 : b1 < 256 := h b1 (by simp)
    have hb2 : b2 < 256 := h b2 (by simp)
    have hb3 : b3 < 256 := h b3 (by simp)
    have hrest := ih (fun b hb => h b (by simp [hb]))
    simp only [toSextets, fromSextets, List.cons.injEq]
    exact ⟨by omega, by omega, by omega, hrest⟩

theorem toSextets_lt : ∀ l : List Nat, (∀ b ∈ l, b < 256) →
    ∀ s ∈ toSextets l, s < 64 := by
  intro l
  induction l using toSextets.induct with
  | case1 => intro _ s hs; simp [toSextets] at hs
  | case2 b1 =>
    intro h s hs
    have hb1 : b1 < 256 := h b1 (by simp)
    simp [toSextets] at hs
    rcases hs with hs | hs <;> omega
  | case3 b1 b2 =>
    intro h s hs
    have hb1 : b1 < 256 := h b1 (by simp)
    have hb2 : b2 < 256 := h b2 (by simp)
    simp [toSextets] at hs
    rcases hs with hs | hs | hs <;> omega
  | case4 b1 b2 b3 rest ih =>
    intro h s hs
    have hb1 : b1 < 256 := h b1 (by simp)
    have hb2 : b2 < 256 := h b2 (by simp)
    have hb3 : b3 < 256 := h b3 (by simp)
    simp only [toSextets, List.mem_cons] at hs
    rcases hs with hs | hs | hs | hs | hs
    · omega
    · omega
    · omega
    · omega
    · exact ih (fun b hb => h b (by simp [hb])) s hs

/-- Maps a sextet to its base64url character code (the `btoa` alphabet with
`+` replaced by `-` and `/` by `_`, as in `arrayBufferToBase64Url`). -/
def sextetToCode (s : Nat) : Nat :=
  if s < 26 then 65 + s
  else if s < 52 then 97 + (s - 26)
  else if s < 62 then 48 + (s - 52)
  else if s = 62 then 45
  else 95

/-- Maps a base64url character code back to its sextet (the `atob` direction
after `base64UrlToArrayBuffer` restores `+` and `/`). -/
def codeToSextet (c : Nat) : Nat :=
  if 65 ≤ c ∧ c ≤ 90 then c - 65
  else if 97 ≤ c ∧ c ≤ 122 then c - 97 + 26
  else if 48 ≤ c ∧ c ≤ 57 then c - 48 + 52
  else if c = 45 then 62
  else 63

theorem codeToSextet_sextetToCode {s : Nat} (h : s < 64) :
    codeToSextet (sextetToCode s) = s := by
  unfold sextetToCode codeToSextet
  split_ifs <;> omega

theorem map_code_roundtrip {l : List Nat} (h : ∀ s ∈ l, s < 64) :
    (l.map sextetToCode).map codeToSextet = l := by
  induction l with
  | nil => rfl
  | cons s rest ih =>
    simp only [List.map_cons, List.cons.injEq]
    exact ⟨codeToSextet_sextetToCode (h s (by simp)),
           ih (fun t ht => h t (by simp [ht]))⟩

/-- `Encryption.encryptPath`: deflate the path bytes, XOR with the fixed
AES-CTR keystream (all-zero IV, fixed key), base64url-encode.  `deflate` and
`ks` are the external primitives. -/
def encryptPath (deflate : List Nat → List Nat) (ks : Nat → Nat)
    (path : List Nat) : List Nat :=
  (toSextets (ctrXor ks 0 (deflate path))).map sextetToCode

/-- `Encryption.decryptPath`: base64url-decode, XOR with the same keystream,
inflate. -/
def decryptPath (inflate : List Nat → List Nat) (ks : Nat → Nat)
    (data : List Nat) : List Nat :=
  inflate (ctrXor ks 0 (fromSextets (data.map codeToSextet)))

/-- C1: for every valid path `p` (given via its deflate image, constrained by
the zlib round-trip contract `inflate (deflate p) = p` and byte-ness of the
compressed output) and every AES-CTR keystream (byte-valued, fixed because the
IV is the fixed all-zero counter and the key is unchanged),
`decryptPath (encryptPath p) = p`; and `encryptPath` is deterministic and
injective: `encryptPath p1 = encryptPath p2 ↔ p1 = p2`. -/
theorem encryptPath_roundtrip_and_injective
    (deflate inflate : List Nat → List Nat) (ks : Nat → Nat)
    (hks : ∀ j, ks j < 256) (p1 p2 : List Nat)
    (hinf1 : inflate (deflate p1) = p1) (hbytes1 : ∀ b ∈ deflate p1, b < 256)
    (hinf2 : inflate (deflate p2) = p2) (hbytes2 : ∀ b ∈ deflate p2, b < 256) :
    decryptPath inflate ks (encryptPath deflate ks p1) = p1 ∧
    (encryptPath deflate ks p1 = encryptPath deflate ks p2 ↔ p1 = p2) := by
  have roundtrip : ∀ p : List Nat, inflate (deflate p) = p →
      (∀ b ∈ deflate p, b < 256) →
      decryptPath inflate ks (encryptPath deflate ks p) = p := by
    intro p hinf hbytes
    unfold encryptPath decryptPath
    rw [map_code_roundtrip (toSextets_lt _ (ctrXor_lt ks hks 0 _ hbytes)),
        fromSextets_toSextets _ (ctrXor_lt ks hks 0 _ hbytes),
        ctrXor_ctrXor, hinf]
  refine ⟨roundtrip p1 hinf1 hbytes1, ?_, fun h => by rw [h]⟩
  intro h
  calc p1 = decryptPath inflate ks (encryptPath deflate ks p1) :=
        (roundtrip p1 hinf1 hbytes1).symm
    _ = decryptPath inflate ks (encryptPath deflate ks p2) := by rw [h]
    _ = p2 := roundtrip p2 hinf2 hbytes2

/-- Witness for C1 at a concrete input: identity compression, the constant
keystream 5, and the byte lists of two distinct one-character paths. -/
theorem encryptPath_roundtrip_witness :
    decryptPath id (fun _ => 5) (encryptPath id (fun _ => 5) [104, 105]) = [104, 105] ∧
    (encryptPath id (fun _ => 5) [104, 105] = encryptPath id (fun _ => 5) [106] ↔
      [104, 105] = [106]) := by
  exact encryptPath_roundtrip_and_injective id id (fun _ => 5)
    (fun _ => by norm_num) [104, 105] [106] rfl (by decide) rfl (by decide)

/-! ## Change detection (`fit.ts`, with `compareSha` from the missing `utils.ts`) -/

theorem filterMap_eq_nil_of {α β : Type} {f : α → Option β} {l : List α}
    (h : ∀ a ∈ l, f a = none) : l.filterMap f = [] := by
  induction l with
  | nil => rfl
  | cons a rest ih =>
    simp [List.filterMap_cons, h a (by simp), ih (fun b hb => h b (by simp [hb]))]

/-- Modelled from the spec: `compareSha` lives in `src/utils.ts`, which is not
among the provided sources.  Spec §3/§4.3: diff two fingerprint maps; a path
present only in `current` is created/ADDED, a path present only in `previous`
is deleted/REMOVED, a path present in both with a different fingerprint is
changed/MODIFIED.  The side-specific change vocabulary is supplied by the
caller. -/
def compareSha {κ : Type} (current previous : List (String × String))
    (createdKind changedKind deletedKind : κ) : List (String × κ) :=
  current.filterMap (fun pr =>
    match shaLookup pr.1 previous with
    | none => some (pr.1, createdKind)
    | some sha => if sha ≠ pr.2 then some (pr.1, changedKind) else none)
  ++ previous.filterMap (fun pr =>
    match shaLookup pr.1 current with
    | none => some (pr.1, deletedKind)
    | some _ => none)

theorem compareSha_self {κ : Type} (A : List (String × String))
    (hnd : (A.map Prod.fst).Nodup) (k1 k2 k3 : κ) :
    compareSha A A k1 k2 k3 = [] := by
  unfold compareSha
  rw [filterMap_eq_nil_of (fun pr hpr => by
        have hl := shaLookup_of_mem_nodup hnd
          (show (pr.1, pr.2) ∈ A by simpa using hpr)
        simp [hl]),
      filterMap_eq_nil_of (fun pr hpr => by
        have hl := shaLookup_of_mem_nodup hnd
          (show (pr.1, pr.2) ∈ A by simpa using hpr)
        simp [hl])]
  rfl

/-- `Fit.getLocalChanges`: diff the current local fingerprint map against the
snapshot `localSha`. -/
def getLocalChanges (st : FitState) (currentLocalSha : List (String × String)) :
    List LocalChange :=
  (compareSha currentLocalSha st.localSha LocalFileStatus.created .changed .deleted).map
    (fun pk => ⟨pk.1, pk.2⟩)

/-- `Fit.getRemoteChanges`: diff the fetched remote tree fingerprints against
the snapshot `lastFetchedRemoteSha`. -/
def getRemoteChanges (st : FitState) (remoteTreeSha : List (String × String)) :
    List RemoteChange :=
  (compareSha remoteTreeSha st.lastFetchedRemoteSha RemoteChangeType.ADDED .MODIFIED .REMOVED).map
    (fun pk => ⟨pk.1, pk.2, shaLookup pk.1 remoteTreeSha⟩)

/-- `Fit.remoteUpdated`: the remote is considered updated when the fetched
commit id differs from the snapshot's `lastFetchedCommitSha`. -/
def remoteUpdated (st : FitState) (remoteCommitSha : String) : Bool :=
  st.lastFetchedCommitSha != some remoteCommitSha

/-! ## Clash classification (`Fit.getClashedChanges`) -/

/-- `Fit.getClashedChanges`: pairs each local change path with its index,
looks the path up in the remote change paths via `indexOf`, keeps the hits,
and reads both statuses back through the recorded indices. -/
def getClashedChanges (localChanges : List LocalChange)
    (remoteChanges : List RemoteChange) : List ClashStatus :=
  let localChangePaths := localChanges.map (·.path)
  let remoteChangePaths := remoteChanges.map (·.path)
  let clashedFiles := (pathsWithIndex localChangePaths 0).filterMap
    (fun pe => match indexOfPath pe.1 remoteChangePaths with
      | some remoteIndex => some (pe.1, pe.2, remoteIndex)
      | none => none)
  clashedFiles.map (fun t =>
    { path := t.1,
      localStatus := (nthD localChanges t.2.1 ⟨"", .created⟩).status,
      remoteStatus := (nthD remoteChanges t.2.2 ⟨"", .ADDED, none⟩).status })

theorem filterMap_map_sublist {α β γ : Type} (f : α → Option β) (g : β → γ)
    (h : α → γ) (hfg : ∀ a b, f a = some b → g b = h a) :
    ∀ l : List α, ((l.filterMap f).map g).Sublist (l.map h) := by
  intro l
  induction l with
  | nil => simp
  | cons a rest ih =>
    cases hfa : f a with
    | none =>
      rw [List.filterMap_cons, hfa, List.map_cons]
      exact ih.cons (h a)
    | some b =>
      rw [List.filterMap_cons, hfa, List.map_cons, List.map_cons, hfg a b hfa]
      exact ih.cons₂ (h a)

/-- C5: with at most one entry per path on each side, `getClashedChanges`
contains exactly one `ClashStatus` for each path present in both change
lists, carrying that path's local and remote change kinds; paths on only one
side produce no clash. -/
theorem getClashedChanges_spec (L : List LocalChange) (R : List RemoteChange)
    (hL : (L.map (·.path)).Nodup) (hR : (R.map (·.path)).Nodup) :
    (∀ lc ∈ L, ∀ rc ∈ R, lc.path = rc.path →
      ClashStatus.mk lc.path lc.status rc.status ∈ getClashedChanges L R) ∧
    (∀ c ∈ getClashedChanges L R, ∃ lc, lc ∈ L ∧ ∃ rc, rc ∈ R ∧
      lc.path = c.path ∧ rc.path = c.path ∧
      c.localStatus = lc.status ∧ c.remoteStatus = rc.status) ∧
    ((getClashedChanges L R).map (·.path)).Nodup := by
  refine ⟨?_, ?_, ?_⟩
  · intro lc hlc rc hrc hpaths
    rcases mem_iff_nth?.mp hlc with ⟨i, hi⟩
    have hiP : nth? (L.map (·.path)) i = some lc.path := by
      rw [nth?_map, hi]; rfl
    have hmemPath : lc.path ∈ R.map (·.path) := by
      rw [hpaths]; exact List.mem_map_of_mem _ hrc
    rcases indexOfPath_of_mem hmemPath with ⟨m, hm⟩
    have hmP : nth? (R.map (·.path)) m = some lc.path := indexOfPath_some hm
    rcases mem_iff_nth?.mp hrc with ⟨j, hj⟩
    have hjP : nth? (R.map (·.path)) j = some lc.path := by
      rw [nth?_map, hj, hpaths]; rfl
    have hjm : m = j := nodup_nth?_inj hR hmP hjP
    subst hjm
    have hmR : nth? R m = some rc := hj
    refine List.mem_map.mpr ⟨(lc.path, i, m), ?_, ?_⟩
    · refine List.mem_filterMap.mpr ⟨(lc.path, i), ?_, ?_⟩
      · exact mem_pathsWithIndex.mpr ⟨i, by omega, hiP⟩
      · simp [hm]
    · simp [nthD_of_nth? _ hi, nthD_of_nth? _ hmR]
  · intro c hc
    rcases List.mem_map.mp hc with ⟨t, ht, hmapped⟩
    rcases List.mem_filterMap.mp ht with ⟨pe, hpe, hmatch⟩
    rcases hmm : indexOfPath pe.1 (R.map (·.path)) with _ | m
    · rw [hmm] at hmatch; simp at hmatch
    · rw [hmm] at hmatch
      simp only [Option.some.injEq] at hmatch
      subst hmatch
      obtain ⟨p, li⟩ := pe
      rcases mem_pathsWithIndex.mp hpe with ⟨j, hj, hnthj⟩
      have hij : li = j := by omega
      subst hij
      rcases Option.map_eq_some'.mp (by rw [← nth?_map (·.path) L li]; exact hnthj) with
        ⟨lc, hlc, hlcp⟩
      have hmP : nth? (R.map (·.path)) m = some p := indexOfPath_some hmm
      rcases Option.map_eq_some'.mp (by rw [← nth?_map (·.path) R m]; exact hmP) with
        ⟨rc, hrc, hrcp⟩
      subst hmapped
      refine ⟨lc, mem_iff_nth?.mpr ⟨li, hlc⟩, rc, mem_iff_nth?.mpr ⟨m, hrc⟩,
        hlcp, hrcp, ?_, ?_⟩
      · show (nthD L li ⟨"", LocalFileStatus.created⟩).status = lc.status
        rw [nthD_of_nth? _ hlc]
      · show (nthD R m ⟨"", RemoteChangeType.ADDED, none⟩).status = rc.status
        rw [nthD_of_nth? _ hrc]
  · have hsub : ((getClashedChanges L R).map (·.path)).Sublist (L.map (·.path)) := by
      have h1 : (getClashedChanges L R).map (·.path) =
          (((pathsWithIndex (L.map (·.path)) 0).filterMap
            (fun pe => match indexOfPath pe.1 (R.map (·.path)) with
              | some remoteIndex => some (pe.1, pe.2, remoteIndex)
              | none => none)).map (fun t : String × Nat × Nat => t.1)) := by
        simp [getClashedChanges, List.map_map]
      have h2 := filterMap_map_sublist
        (fun pe : String × Nat => match indexOfPath pe.1 (R.map (·.path)) with
          | some remoteIndex => some (pe.1, pe.2, remoteIndex)
          | none => none)
        (fun t : String × Nat × Nat => t.1) (fun pe => pe.1)
        (by
          intro a b hab
          simp only at hab
          rcases hmm : indexOfPath a.1 (R.map (·.path)) with _ | m
          · rw [hmm] at hab; simp at hab
          · rw [hmm] at hab
            simp only [Option.some.injEq] at hab
            rw [← hab])
        (pathsWithIndex (L.map (·.path)) 0)
      have h4 : (pathsWithIndex (L.map (·.path)) 0).map (fun pe : String × Nat => pe.1) =
          L.map (·.path) := pathsWithIndex_map_fst _ 0
      rw [h4] at h2
      rw [h1]
      exact h2
    exact List.Nodup.sublist hsub hL

/-- Witness for C5 at concrete change lists sharing exactly the path `a.md`. -/
theorem getClashedChanges_witness :
    ClashStatus.mk "a.md" LocalFileStatus.changed RemoteChangeType.MODIFIED ∈
      getClashedChanges
        [⟨"a.md", LocalFileStatus.changed⟩, ⟨"b.md", LocalFileStatus.created⟩]
        [⟨"a.md", RemoteChangeType.MODIFIED, some "s1"⟩] :=
  (getClashedChanges_spec
      [⟨"a.md", LocalFileStatus.changed⟩, ⟨"b.md", LocalFileStatus.created⟩]
      [⟨"a.md", RemoteChangeType.MODIFIED, some "s1"⟩]
      (by decide) (by decide)).1
    ⟨"a.md", LocalFileStatus.changed⟩ (by decide)
    ⟨"a.md", RemoteChangeType.MODIFIED, some "s1"⟩ (by decide) rfl

/-! ## Environment of external collaborators

`Env` supplies the results of the GitHub API and vault filesystem calls and
the outcomes of the randomized cryptographic primitives; `failAt` makes the
external call with that step index throw, modelling a failing remote/local
operation. -/

/-- Results of all external calls, plus an optional failing step index. -/
structure Env where
  failAt : Option Nat
  currentLocalSha : List (String × String)
  remoteCommitSha : String
  remoteTreeShaMap : List (String × String)
  remoteTree : List TreeNode
  contentOf : String → String
  blobShaOf : String → String
  blobContentOf : String → String
  decryptResult : String → Option String
  decryptPathResult : String → Option String
  pushedCommitSha : String
  pushedRemoteTreeShaMap : List (String × String)

/-- The `.replace(/\n/g, '')` applied to fetched blob content in `Fit.getBlob`. -/
def removeNewlines (s : String) : String :=
  String.mk (s.data.filter (fun c => c != '\n'))

/-- Modelled from the spec: `removeLineEndingsFromBase64String` lives in
`src/utils.ts`, which is not among the provided sources; §4.5 describes the
comparison as byte-for-byte "normalizing only line-ending-insensitive
encoding noise", so the model strips the line-ending characters from the
base64 string. -/
def removeLineEndingsFromBase64String (s : String) : String :=
  String.mk (s.data.filter (fun c => c != '\n' && c != '\r'))

/-- `FitSync.generateConflictReport`: unconditionally builds the `utf-8`
variant. -/
def generateConflictReport (path localContent remoteContent : String) :
    ConflictReport :=
  .utf8 path localContent remoteContent

/-- `Fit.getBlob`: fetch the raw blob content, strip newlines, try to decrypt;
on decryption failure return the raw (still encrypted) content instead of
throwing. -/
def getBlob (env : Env) (file_sha : String) : String :=
  let raw := env.blobContentOf file_sha
  match env.decryptResult (removeNewlines raw) with
  | some plain => plain
  | none => raw

/-- `Fit.getTree`: fetch the raw tree and decrypt each node's path in place;
a node whose path fails to decrypt is left in the array unchanged (the
`catch` only logs). -/
def getTree (env : Env) (rawTree : List TreeNode) : List TreeNode :=
  rawTree.map (fun node =>
    match env.decryptPathResult node.path with
    | some p => { node with path := p }
    | none => node)

/-- `Fit.createTreeNodeFromFile`: deletion of a path absent from the remote
tree yields no node; otherwise a deletion sentinel node; for created/changed
files the blob is created and the node is skipped when the remote tree
already holds the same content id at the same path. -/
def createTreeNodeFromFile (env : Env) (change : LocalChange)
    (remoteTree : List TreeNode) : Option TreeNode :=
  if change.status = .deleted then
    if remoteTree.all (fun node => node.path != change.path) then none
    else some ⟨change.path, some "100644", some .blob, none⟩
  else
    let blobSha := env.blobShaOf (env.contentOf change.path)
    if remoteTree.any (fun node => node.path == change.path && node.sha == some blobSha)
    then none
    else some ⟨change.path, some "100644", some .blob, some blobSha⟩

/-- C10: `generateConflictReport` always constructs the `utf-8` variant of
`ConflictReport`; the `binary` variant is never produced. -/
theorem generateConflictReport_always_utf8 :
    ∀ path localContent remoteContent : String,
      resolutionStrategy (generateConflictReport path localContent remoteContent) =
        "utf-8" ∧
      ∀ p r, generateConflictReport path localContent remoteContent ≠
        ConflictReport.binary p r := by
  intro path localContent remoteContent
  exact ⟨rfl, fun p r h => ConflictReport.noConfusion h⟩

/-- C9: `getBlob` never throws on decryption failure: when decrypting the
newline-stripped fetched content fails it returns the raw, still-encrypted
content, and when decryption succeeds it returns the decrypted plaintext. -/
theorem getBlob_spec (env : Env) (file_sha : String) :
    (env.decryptResult (removeNewlines (env.blobContentOf file_sha)) = none →
      getBlob env file_sha = env.blobContentOf file_sha) ∧
    (∀ plain,
      env.decryptResult (removeNewlines (env.blobContentOf file_sha)) = some plain →
      getBlob env file_sha = plain) := by
  constructor
  · intro h
    simp [getBlob, h]
  · intro plain h
    simp [getBlob, h]

/-- Environment with failing decryption, used as concrete input below. -/
def envBase : Env where
  failAt := none
  currentLocalSha := []
  remoteCommitSha := "c0"
  remoteTreeShaMap := []
  remoteTree := []
  contentOf := fun _ => ""
  blobShaOf := fun _ => ""
  blobContentOf := fun _ => "RAWCIPHER"
  decryptResult := fun _ => none
  decryptPathResult := fun _ => none
  pushedCommitSha := "c1"
  pushedRemoteTreeShaMap := []

/-- Environment with succeeding decryption, used as concrete input below. -/
def envDecryptOk : Env :=
  { envBase with decryptResult := fun _ => some "PLAIN" }

/-- Witness for C9: concrete blob fetches under failing and succeeding
decryption. -/
theorem getBlob_spec_witness :
    getBlob envBase "sha1" = envBase.blobContentOf "sha1" ∧
    getBlob envDecryptOk "sha1" = "PLAIN" :=
  ⟨(getBlob_spec envBase "sha1").1 rfl, (getBlob_spec envDecryptOk "sha1").2 "PLAIN" rfl⟩

/-- C8 (counterexample to the claim as stated): a tree node whose path fails
to decrypt is not dropped from the parsed tree — `getTree` keeps it, with its
original encrypted path, in the returned array. -/
theorem getTree_failed_node_not_dropped :
    envBase.decryptPathResult "QUJD" = none ∧
    (⟨"QUJD", some "100644", some NodeType.blob, some "abc"⟩ : TreeNode) ∈
      getTree envBase [⟨"QUJD", some "100644", some NodeType.blob, some "abc"⟩] := by
  exact ⟨rfl, by decide⟩

/-- C8 (amended): a path-decryption failure on a single node does not abort
the fetch: `getTree` returns as many nodes as it fetched, keeps a node whose
path fails to decrypt unchanged (with its encrypted path), and returns every
other node with its path decrypted. -/
theorem getTree_spec (env : Env) (rawTree : List TreeNode) :
    (getTree env rawTree).length = rawTree.length ∧
    (∀ node ∈ rawTree, env.decryptPathResult node.path = none →
      node ∈ getTree env rawTree) ∧
    (∀ node ∈ rawTree, ∀ p, env.decryptPathResult node.path = some p →
      ({ node with path := p } : TreeNode) ∈ getTree env rawTree) := by
  refine ⟨by simp [getTree], ?_, ?_⟩
  · intro node hmem h
    exact List.mem_map.mpr ⟨node, hmem, by simp [h]⟩
  · intro node hmem p h
    exact List.mem_map.mpr ⟨node, hmem, by simp [h]⟩

/-- Witness for C8's amended theorem at a concrete two-node tree where one
path decrypts and the other does not. -/
theorem getTree_spec_witness :
    (⟨"QUJD", some "100644", some NodeType.blob, some "abc"⟩ : TreeNode) ∈
      getTree ({ envBase with decryptPathResult :=
          fun s => if s = "ZW5j" then some "notes.md" else none })
        [⟨"QUJD", some "100644", some NodeType.blob, some "abc"⟩,
         ⟨"ZW5j", some "100644", some NodeType.blob, some "def"⟩] ∧
    (⟨"notes.md", some "100644", some NodeType.blob, some "def"⟩ : TreeNode) ∈
      getTree ({ envBase with decryptPathResult :=
          fun s => if s = "ZW5j" then some "notes.md" else none })
        [⟨"QUJD", some "100644", some NodeType.blob, some "abc"⟩,
         ⟨"ZW5j", some "100644", some NodeType.blob, some "def"⟩] :=
  ⟨(getTree_spec _ _).2.1 ⟨"QUJD", some "100644", some NodeType.blob, some "abc"⟩
      (by decide) rfl,
   (getTree_spec _ _).2.2 ⟨"ZW5j", some "100644", some NodeType.blob, some "def"⟩
      (by decide) "notes.md" rfl⟩

/-- C7: during push, `createTreeNodeFromFile` returns no node exactly in the
two skip cases (a deleted path absent from the remote tree; a created/changed
file whose computed blob content id equals the remote tree's entry at the same
path), and otherwise returns a `100644` blob node carrying the deletion
sentinel or the new content id. -/
theorem createTreeNodeFromFile_spec (env : Env) (change : LocalChange)
    (remoteTree : List TreeNode) :
    (createTreeNodeFromFile env change remoteTree = none ↔
      ((change.status = .deleted ∧ ∀ node ∈ remoteTree, node.path ≠ change.path) ∨
       (change.status ≠ .deleted ∧ ∃ node ∈ remoteTree, node.path = change.path ∧
         node.sha = some (env.blobShaOf (env.contentOf change.path))))) ∧
    (change.status = .deleted → (∃ node ∈ remoteTree, node.path = change.path) →
      createTreeNodeFromFile env change remoteTree =
        some ⟨change.path, some "100644", some .blob, none⟩) ∧
    (change.status ≠ .deleted →
      (∀ node ∈ remoteTree, ¬(node.path = change.path ∧
        node.sha = some (env.blobShaOf (env.contentOf change.path)))) →
      createTreeNodeFromFile env change remoteTree =
        some ⟨change.path, some "100644", some .blob,
          some (env.blobShaOf (env.contentOf change.path))⟩) := by
  refine ⟨?_, ?_, ?_⟩
  · simp only [createTreeNodeFromFile]
    by_cases hd : change.status = .deleted
    · rw [if_pos hd]
      by_cases hall : remoteTree.all (fun node => node.path != change.path) = true
      · rw [if_pos hall]
        simp only [List.all_eq_true, bne_iff_ne] at hall
        exact ⟨fun _ => Or.inl ⟨hd, hall⟩, fun _ => rfl⟩
      · rw [if_neg hall]
        simp only [List.all_eq_true, bne_iff_ne] at hall
        push_neg at hall
        constructor
        · intro h
          exact Option.noConfusion h
        · rintro (⟨_, hforall⟩ | ⟨hnd, _⟩)
          · rcases hall with ⟨node, hmem, hpe⟩
            exact absurd hpe (by simpa using hforall node hmem)
          · exact absurd hd hnd
    · rw [if_neg hd]
      by_cases hany : remoteTree.any (fun node => node.path == change.path &&
          node.sha == some (env.blobShaOf (env.contentOf change.path))) = true
      · rw [if_pos hany]
        simp only [List.any_eq_true, Bool.and_eq_true, beq_iff_eq] at hany
        refine ⟨fun _ => Or.inr ⟨hd, ?_⟩, fun _ => rfl⟩
        rcases hany with ⟨node, hmem, hp, hs⟩
        exact ⟨node, hmem, hp, hs⟩
      · rw [if_neg hany]
        simp only [List.any_eq_true, Bool.and_eq_true, beq_iff_eq] at hany
        push_neg at hany
        constructor
        · intro h
          exact Option.noConfusion h
        · rintro (⟨hdel, _⟩ | ⟨_, node, hmem, hp, hs⟩)
          · exact absurd hdel hd
          · exact absurd hs (hany node hmem hp)
  · intro hd hex
    have hall : ¬ remoteTree.all (fun node => node.path != change.path) = true := by
      rcases hex with ⟨node, hmem, hpath⟩
      simp [List.all_eq_true]
      exact ⟨node, hmem, hpath⟩
    simp [createTreeNodeFromFile, hd, hall]
  · intro hd hnone
    have hany : ¬ remoteTree.any
        (fun node => node.path == change.path &&
          node.sha == some (env.blobShaOf (env.contentOf change.path))) = true := by
      simp only [List.any_eq_true, not_exists]
      intro node
      simp only [Bool.and_eq_true, beq_iff_eq, not_and]
      intro hmem hpath hsha
      exact hnone node hmem ⟨hpath, hsha⟩
    simp [createTreeNodeFromFile, hd, hany]

/-- Witness for C7: a deleted path present remotely yields the deletion
sentinel node, and a changed file with a fresh content id yields a blob node
carrying that id. -/
theorem createTreeNodeFromFile_witness :
    createTreeNodeFromFile envBase ⟨"a.md", LocalFileStatus.deleted⟩
        [⟨"a.md", some "100644", some NodeType.blob, some "x"⟩] =
      some ⟨"a.md", some "100644", some NodeType.blob, none⟩ ∧
    createTreeNodeFromFile envBase ⟨"b.md", LocalFileStatus.changed⟩
        [⟨"b.md", some "100644", some NodeType.blob, some "x"⟩] =
      some ⟨"b.md", some "100644", some NodeType.blob,
        some (envBase.blobShaOf (envBase.contentOf "b.md"))⟩ :=
  ⟨(createTreeNodeFromFile_spec envBase ⟨"a.md", LocalFileStatus.deleted⟩
      [⟨"a.md", some "100644", some NodeType.blob, some "x"⟩]).2.1 rfl
      ⟨⟨"a.md", some "100644", some NodeType.blob, some "x"⟩, by decide, rfl⟩,
   (createTreeNodeFromFile_spec envBase ⟨"b.md", LocalFileStatus.changed⟩
      [⟨"b.md", some "100644", some NodeType.blob, some "x"⟩]).2.2 (by decide)
      (by decide)⟩

/-! ## Trace monad

Stateful methods are embedded in a monad `M` over a step counter and a trace
of external calls.  Each external operation appends its `Call` tag to the
trace; when the environment's `failAt` equals the current step index the
operation throws instead (modelling a failed remote or filesystem call), and
the error propagates like a JS exception. -/

/-- External call tags recorded in the trace. -/
inductive Call where
  | computeLocalSha
  | getRef
  | getRemoteTreeSha
  | getTree
  | readLocal (path : String)
  | createBlob (content : String)
  | createTree
  | createCommit
  | updateRef
  | getBlob (sha : String)
  | writeLocal (path content : String)
  | deleteLocal (path : String)
  | ensureFolder (path : String)
  | save
deriving DecidableEq

/-- Monad state: next step index and the trace so far. -/
abbrev MState := Nat × List Call

/-- The embedding monad: explicit state passing with `Except` for thrown
errors. -/
def M (α : Type) : Type := MState → Except Unit α × MState

/-- Pure computation in `M`. -/
def Mpure {α : Type} (a : α) : M α := fun s => (.ok a, s)

/-- Sequencing in `M`: an error short-circuits, keeping the state. -/
def Mbind {α β : Type} (x : M α) (f : α → M β) : M β := fun s =>
  match x s with
  | (.ok a, s') => f a s'
  | (.error e, s') => (.error e, s')

instance : Monad M where
  pure := Mpure
  bind := Mbind

theorem bind_apply {α β : Type} (x : M α) (f : α → M β) (s : MState) :
    (x >>= f) s = match x s with
      | (.ok a, s') => f a s'
      | (.error e, s') => (.error e, s') := rfl

theorem pure_apply {α : Type} (a : α) (s : MState) :
    (pure a : M α) s = (.ok a, s) := rfl

/-- One external call: throws when `failAt` hits the current step, otherwise
records the call in the trace. -/
def op (env : Env) (c : Call) : M Unit := fun s =>
  if env.failAt = some s.1 then (.error (), (s.1 + 1, s.2))
  else (.ok (), (s.1 + 1, s.2 ++ [c]))

/-- A computation only ever appends calls satisfying `P` to the trace. -/
def TraceOK (P : Call → Prop) {α : Type} (x : M α) : Prop :=
  ∀ s, ∃ ext, (x s).2.2 = s.2 ++ ext ∧ ∀ c ∈ ext, P c

theorem traceOK_pure (P : Call → Prop) {α : Type} (a : α) :
    TraceOK P (pure a : M α) :=
  fun _ => ⟨[], by simp [pure_apply], by simp⟩

theorem traceOK_op (P : Call → Prop) (env : Env) (c : Call) (hc : P c) :
    TraceOK P (op env c) := by
  intro s
  by_cases h : env.failAt = some s.1
  · exact ⟨[], by simp [op, h], by simp⟩
  · exact ⟨[c], by simp [op, h], by simpa using hc⟩

theorem traceOK_bind {P : Call → Prop} {α β : Type} {x : M α} {f : α → M β}
    (hx : TraceOK P x) (hf : ∀ a, TraceOK P (f a)) : TraceOK P (x >>= f) := by
  intro s
  rcases hx s with ⟨e1, h1, g1⟩
  rcases hxs : x s with ⟨r, s'⟩
  rw [hxs] at h1
  cases r with
  | ok a =>
    rcases hf a s' with ⟨e2, h2, g2⟩
    have hrun : (x >>= f) s = f a s' := by rw [bind_apply, hxs]
    refine ⟨e1 ++ e2, ?_, ?_⟩
    · rw [hrun, h2, h1, List.append_assoc]
    · intro c hc
      rcases List.mem_append.mp hc with h | h
      · exact g1 c h
      · exact g2 c h
  | error e0 =>
    have hrun : (x >>= f) s = (.error e0, s') := by rw [bind_apply, hxs]
    refine ⟨e1, ?_, g1⟩
    rw [hrun]
    exact h1

/-! ## Pre-sync checks (`FitSync.performPreSyncChecks`) -/

/-- `FitSync.performPreSyncChecks`: compute the local fingerprints, diff
against the snapshot, fetch the remote ref and compare with the snapshot; if
nothing changed return `inSync` immediately, otherwise fetch the remote tree,
diff it, classify, and return the computed remote update and local changes. -/
def performPreSyncChecks (st : FitState) (env : Env) : M PreSyncCheckResult := do
  op env .computeLocalSha
  let currentLocalSha := env.currentLocalSha
  let localChanges := getLocalChanges st currentLocalSha
  op env .getRef
  let remoteCommitSha := env.remoteCommitSha
  let updated := remoteUpdated st remoteCommitSha
  if localChanges.length = 0 ∧ updated = false then
    return PreSyncCheckResult.inSync
  else do
    op env .getRemoteTreeSha
    let remoteTreeSha := env.remoteTreeShaMap
    let remoteChanges := getRemoteChanges st remoteTreeSha
    if localChanges.length > 0 ∧ updated = false then
      return .other .onlyLocalChanged
        ⟨remoteChanges, remoteTreeSha, remoteCommitSha, []⟩ localChanges currentLocalSha
    else if updated = true ∧ localChanges.length = 0 ∧ remoteChanges.length = 0 then
      return .other .onlyRemoteCommitShaChanged
        ⟨remoteChanges, remoteTreeSha, remoteCommitSha, []⟩ localChanges currentLocalSha
    else if localChanges.length = 0 ∧ updated = true then
      return .other .onlyRemoteChanged
        ⟨remoteChanges, remoteTreeSha, remoteCommitSha, []⟩ localChanges currentLocalSha
    else
      let clashes := getClashedChanges localChanges remoteChanges
      if clashes.length = 0 then
        return .other .localAndRemoteChangesCompatible
          ⟨remoteChanges, remoteTreeSha, remoteCommitSha, clashes⟩ localChanges currentLocalSha
      else
        return .other .localAndRemoteChangesClashed
          ⟨remoteChanges, remoteTreeSha, remoteCommitSha, clashes⟩ localChanges currentLocalSha

/-- C2: when the current local fingerprint map equals the snapshot (making
`getLocalChanges` empty) and the fetched remote commit id equals the
snapshot's, `performPreSyncChecks` returns `inSync` having made exactly the
two calls (computing local fingerprints, fetching the remote ref); otherwise
it makes exactly one further call (fetching the remote tree) and returns one
of the five non-inSync statuses with the computed remote update and local
changes. -/
theorem performPreSyncChecks_spec (st : FitState) (env : Env)
    (hfail : env.failAt = none) :
    ((env.currentLocalSha = st.localSha ∧ (st.localSha.map Prod.fst).Nodup) →
      getLocalChanges st env.currentLocalSha = []) ∧
    ((getLocalChanges st env.currentLocalSha = [] ∧
        st.lastFetchedCommitSha = some env.remoteCommitSha) →
      performPreSyncChecks st env (0, []) =
        (.ok .inSync, (2, [.computeLocalSha, .getRef]))) ∧
    (¬(getLocalChanges st env.currentLocalSha = [] ∧
        st.lastFetchedCommitSha = some env.remoteCommitSha) →
      ∃ status ru,
        performPreSyncChecks st env (0, []) =
          (.ok (.other status ru (getLocalChanges st env.currentLocalSha)
              env.currentLocalSha),
            (3, [.computeLocalSha, .getRef, .getRemoteTreeSha])) ∧
        status ∈ [SyncStatus.onlyLocalChanged, .onlyRemoteCommitShaChanged,
          .onlyRemoteChanged, .localAndRemoteChangesCompatible,
          .localAndRemoteChangesClashed] ∧
        ru.remoteChanges = getRemoteChanges st env.remoteTreeShaMap ∧
        ru.remoteTreeSha = env.remoteTreeShaMap ∧
        ru.latestRemoteCommitSha = env.remoteCommitSha) := by
  have hop : ∀ (c : Call) (n : Nat) (tr : List Call),
      op env c (n, tr) = (.ok (), (n + 1, tr ++ [c])) := by
    intro c n tr
    simp [op, hfail]
  refine ⟨?_, ?_, ?_⟩
  · rintro ⟨hcur, hnd⟩
    rw [hcur]
    simp [getLocalChanges, compareSha_self st.localSha hnd]
  · rintro ⟨hchanges, hcommit⟩
    have hupd : remoteUpdated st env.remoteCommitSha = false := by
      simp [remoteUpdated, hcommit]
    simp [performPreSyncChecks, bind_apply, hop, hchanges, hupd, pure_apply]
  · intro hnot
    have hcond : ¬((getLocalChanges st env.currentLocalSha).length = 0 ∧
        remoteUpdated st env.remoteCommitSha = false) := by
      rintro ⟨h1, h2⟩
      refine hnot ⟨List.length_eq_zero.mp h1, ?_⟩
      simpa [remoteUpdated, bne_eq_false_iff_eq] using h2
    rw [performPreSyncChecks]
    simp only [bind_apply, hop, pure_apply]
    rw [if_neg hcond]
    simp only [bind_apply, hop, pure_apply]
    split_ifs with h1 h2 h3 h4
    · exact ⟨.onlyLocalChanged, _, rfl, by simp, rfl, rfl, rfl⟩
    · exact ⟨.onlyRemoteCommitShaChanged, _, rfl, by simp, rfl, rfl, rfl⟩
    · exact ⟨.onlyRemoteChanged, _, rfl, by simp, rfl, rfl, rfl⟩
    · exact ⟨.localAndRemoteChangesCompatible, _, rfl, by simp, rfl, rfl, rfl⟩
    · exact ⟨.localAndRemoteChangesClashed, _, rfl, by simp, rfl, rfl, rfl⟩

/-- Snapshot state used as concrete input below. -/
def stWitness : FitState where
  localSha := [("a.md", "s1")]
  lastFetchedCommitSha := some "c0"
  lastFetchedRemoteSha := [("a.md", "r1")]

/-- Environment matching `stWitness` exactly (nothing changed anywhere). -/
def envInSync : Env :=
  { envBase with currentLocalSha := [("a.md", "s1")], remoteCommitSha := "c0" }

/-- Environment with a modified local file and unchanged remote commit. -/
def envLocalEdit : Env :=
  { envBase with currentLocalSha := [("a.md", "s2")], remoteCommitSha := "c0" }

/-- Witness for C2: the in-sync run stops after the two identity checks; the
run with a local edit classifies into a non-inSync status. -/
theorem performPreSyncChecks_witness :
    performPreSyncChecks stWitness envInSync (0, []) =
      (.ok .inSync, (2, [.computeLocalSha, .getRef])) ∧
    (∃ status ru,
      performPreSyncChecks stWitness envLocalEdit (0, []) =
        (.ok (.other status ru
            (getLocalChanges stWitness envLocalEdit.currentLocalSha)
            envLocalEdit.currentLocalSha),
          (3, [.computeLocalSha, .getRef, .getRemoteTreeSha])) ∧
      status ∈ [SyncStatus.onlyLocalChanged, .onlyRemoteCommitShaChanged,
        .onlyRemoteChanged, .localAndRemoteChangesCompatible,
        .localAndRemoteChangesClashed] ∧
      ru.remoteChanges = getRemoteChanges stWitness envLocalEdit.remoteTreeShaMap ∧
      ru.remoteTreeSha = envLocalEdit.remoteTreeShaMap ∧
      ru.latestRemoteCommitSha = envLocalEdit.remoteCommitSha) :=
  ⟨(performPreSyncChecks_spec stWitness envInSync rfl).2.1
      ⟨(performPreSyncChecks_spec stWitness envInSync rfl).1 ⟨rfl, by decide⟩, rfl⟩,
   (performPreSyncChecks_spec stWitness envLocalEdit rfl).2.2 (by decide)⟩

/-! ## Conflict resolution (`FitSync.resolveFileConflict` and helpers) -/

/-- `Fit.getBlob` in the trace monad: one remote call, then the pure fetch
result (decrypted content, or raw content on decryption failure). -/
def getBlobM (env : Env) (sha : String) : M String := do
  op env (.getBlob sha)
  pure (getBlob env sha)

/-- `FitSync.handleLocalDeletionConflict`: materialize the remote version of
a locally deleted clashed file under the `_fit` quarantine folder. -/
def handleLocalDeletionConflict (env : Env) (path : String)
    (remoteContent : String) : M FileOpRecord := do
  op env (.ensureFolder "_fit")
  op env (.writeLocal ("_fit/" ++ path) remoteContent)
  pure ⟨"_fit/" ++ path, .created⟩

/-- `FitSync.resolveFileConflict`: both sides deleted is no conflict; local
deletion against a surviving remote file quarantines the remote content;
otherwise compare contents modulo line endings and quarantine the remote
content on divergence; a clashed path without a remote content id is treated
as deleted remotely. -/
def resolveFileConflict (env : Env) (clash : ClashStatus)
    (latestRemoteFileSha : Option String) : M ConflictResolutionResult := do
  if clash.localStatus = .deleted ∧ clash.remoteStatus = .REMOVED then
    return ⟨clash.path, true, none⟩
  else if clash.localStatus = .deleted then do
    let remoteContent ← getBlobM env (latestRemoteFileSha.getD "")
    let fileOp ← handleLocalDeletionConflict env clash.path remoteContent
    return ⟨clash.path, false, some fileOp⟩
  else do
    op env (.readLocal clash.path)
    let localFileContent := env.contentOf clash.path
    match latestRemoteFileSha with
    | some sha => do
      let remoteContent ← getBlobM env sha
      if removeLineEndingsFromBase64String remoteContent ≠
          removeLineEndingsFromBase64String localFileContent then do
        let report := generateConflictReport clash.path localFileContent remoteContent
        op env (.ensureFolder ("_fit/" ++ clash.path))
        op env (.writeLocal ("_fit/" ++ clash.path) (reportRemoteContent report))
        return ⟨clash.path, false, some ⟨"_fit/" ++ clash.path, .created⟩⟩
      else
        return ⟨clash.path, true, none⟩
    | none => return ⟨clash.path, false, none⟩

theorem quarantine_path_ne (p : String) : "_fit/" ++ p ≠ p := by
  intro h
  have h2 := congrArg String.length h
  rw [String.length_append] at h2
  have h5 : ("_fit/" : String).length = 5 := rfl
  rw [h5] at h2
  omega

/-- Trace predicate for C4: not a snapshot save, every local write goes to the
quarantine path of the clash, and nothing is deleted. -/
def QuarantineOnly (clash : ClashStatus) (c : Call) : Prop :=
  c ≠ Call.save ∧
  (∀ p content, c = Call.writeLocal p content → p = "_fit/" ++ clash.path) ∧
  (∀ p, c ≠ Call.deleteLocal p)

theorem resolveFileConflict_traceOK (env : Env) (clash : ClashStatus)
    (latestRemoteFileSha : Option String) :
    TraceOK (QuarantineOnly clash)
      (resolveFileConflict env clash latestRemoteFileSha) := by
  unfold resolveFileConflict
  split_ifs with h1 h2
  · exact traceOK_pure _ _
  · refine traceOK_bind (traceOK_bind (traceOK_op _ env _ ⟨by simp, by simp, by simp⟩)
      (fun _ => traceOK_pure _ _)) (fun remoteContent => ?_)
    refine traceOK_bind ?_ (fun fileOp => traceOK_pure _ _)
    refine traceOK_bind (traceOK_op _ env _ ⟨by simp, by simp, by simp⟩) (fun _ => ?_)
    refine traceOK_bind (traceOK_op _ env _ ?_) (fun _ => traceOK_pure _ _)
    refine ⟨by simp, ?_, by simp⟩
    intro p content h
    injection h with hp hc
    exact hp.symm
  · refine traceOK_bind (traceOK_op _ env _ ⟨by simp, by simp, by simp⟩) (fun _ => ?_)
    cases latestRemoteFileSha with
    | none => exact traceOK_pure _ _
    | some sha =>
      refine traceOK_bind (traceOK_bind (traceOK_op _ env _ ⟨by simp, by simp, by simp⟩)
        (fun _ => traceOK_pure _ _)) (fun remoteContent => ?_)
      split_ifs with hdiff
      · refine traceOK_bind (traceOK_op _ env _ ⟨by simp, by simp, by simp⟩) (fun _ => ?_)
        refine traceOK_bind (traceOK_op _ env _ ?_) (fun _ => traceOK_pure _ _)
        refine ⟨by simp, ?_, by simp⟩
        intro p content h
        injection h with hp hc
        exact hp.symm
      · exact traceOK_pure _ _

/-- C4: conflict resolution never overwrites or deletes the local working
file at a clashed path: every write it performs goes to `_fit/<path>` (which
differs from `<path>`), it deletes nothing, and when the file exists locally
and its content differs from the remote content, the remote content is
written under quarantine and a `created` `FileOpRecord` under the quarantine
path is returned. -/
theorem resolveFileConflict_spec (env : Env) (clash : ClashStatus)
    (latestRemoteFileSha : Option String) (n0 : Nat) :
    (∀ p content, Call.writeLocal p content ∈
        (resolveFileConflict env clash latestRemoteFileSha (n0, [])).2.2 →
      p = "_fit/" ++ clash.path) ∧
    (∀ p, Call.deleteLocal p ∉
        (resolveFileConflict env clash latestRemoteFileSha (n0, [])).2.2) ∧
    "_fit/" ++ clash.path ≠ clash.path ∧
    (env.failAt = none → clash.localStatus ≠ .deleted →
      ∀ sh, latestRemoteFileSha = some sh →
      removeLineEndingsFromBase64String (getBlob env sh) ≠
        removeLineEndingsFromBase64String (env.contentOf clash.path) →
      (resolveFileConflict env clash latestRemoteFileSha (n0, [])).1 =
          .ok ⟨clash.path, false, some ⟨"_fit/" ++ clash.path, .created⟩⟩ ∧
      Call.writeLocal ("_fit/" ++ clash.path) (getBlob env sh) ∈
        (resolveFileConflict env clash latestRemoteFileSha (n0, [])).2.2) := by
  rcases resolveFileConflict_traceOK env clash latestRemoteFileSha (n0, []) with
    ⟨ext, hext, hP⟩
  rw [List.nil_append] at hext
  refine ⟨?_, ?_, quarantine_path_ne clash.path, ?_⟩
  · intro p content hmem
    rw [hext] at hmem
    exact (hP _ hmem).2.1 p content rfl
  · intro p hmem
    rw [hext] at hmem
    exact (hP _ hmem).2.2 p rfl
  · intro hfail hnd sh hsha hdiff
    subst hsha
    have hop : ∀ (c : Call) (n : Nat) (tr : List Call),
        op env c (n, tr) = (.ok (), (n + 1, tr ++ [c])) := by
      intro c n tr
      simp [op, hfail]
    have hc1 : ¬(clash.localStatus = .deleted ∧ clash.remoteStatus = .REMOVED) :=
      fun h => hnd h.1
    constructor
    · simp [resolveFileConflict, getBlobM, bind_apply, pure_apply, hop, hc1, hnd,
        hdiff, generateConflictReport, reportRemoteContent]
    · simp [resolveFileConflict, getBlobM, bind_apply, pure_apply, hop, hc1, hnd,
        hdiff, generateConflictReport, reportRemoteContent]

/-- Witness for C4 at a concrete divergent clash: the sync writes the remote
content to `_fit/a.md` and reports a `created` record there. -/
theorem resolveFileConflict_spec_witness :
    ((resolveFileConflict { envBase with contentOf := fun _ => "LOCAL" }
        ⟨"a.md", LocalFileStatus.changed, RemoteChangeType.MODIFIED⟩
        (some "sha1") (0, [])).1 =
      .ok ⟨"a.md", false, some ⟨"_fit/" ++ "a.md", .created⟩⟩) ∧
    Call.writeLocal ("_fit/" ++ "a.md")
        (getBlob { envBase with contentOf := fun _ => "LOCAL" } "sha1") ∈
      (resolveFileConflict { envBase with contentOf := fun _ => "LOCAL" }
        ⟨"a.md", LocalFileStatus.changed, RemoteChangeType.MODIFIED⟩
        (some "sha1") (0, [])).2.2 :=
  (resolveFileConflict_spec { envBase with contentOf := fun _ => "LOCAL" }
      ⟨"a.md", LocalFileStatus.changed, RemoteChangeType.MODIFIED⟩
      (some "sha1") 0).2.2.2 rfl (by decide) "sha1" rfl (by decide)

/-- C6: a clash whose local status is `deleted` and whose remote status is
`REMOVED` resolves to `noDiff = true` with no `fileOp`, making no external
call at all (no blob fetch, no quarantine write, no record): the monad state
is returned untouched. -/
theorem resolveFileConflict_bothDeleted (env : Env) (clash : ClashStatus)
    (latestRemoteFileSha : Option String) (s : MState)
    (h1 : clash.localStatus = .deleted) (h2 : clash.remoteStatus = .REMOVED) :
    resolveFileConflict env clash latestRemoteFileSha s =
      (.ok ⟨clash.path, true, none⟩, s) := by
  simp [resolveFileConflict, h1, h2, pure_apply]

/-- Witness for C6 at a concrete both-sides-deleted clash. -/
theorem resolveFileConflict_bothDeleted_witness :
    resolveFileConflict envBase
        ⟨"a.md", LocalFileStatus.deleted, RemoteChangeType.REMOVED⟩ none (0, []) =
      (.ok ⟨"a.md", true, none⟩, (0, [])) :=
  resolveFileConflict_bothDeleted envBase
    ⟨"a.md", LocalFileStatus.deleted, RemoteChangeType.REMOVED⟩ none (0, []) rfl rfl

/-! ## Push and pull (`fitSync.ts` with the missing `fitPush.ts` / `fitPull.ts`
/ `vaultOps.ts` modelled from the spec) -/

/-- `Fit.createTreeNodeFromFile` in the trace monad: for a non-deleted change
the file is read and its (encrypted) blob created on the remote before the
skip check; the returned node is the pure function's value. -/
def createTreeNodeFromFileM (env : Env) (change : LocalChange)
    (remoteTree : List TreeNode) : M (Option TreeNode) := do
  if change.status = .deleted then
    pure (createTreeNodeFromFile env change remoteTree)
  else do
    op env (.readLocal change.path)
    op env (.createBlob (env.contentOf change.path))
    pure (createTreeNodeFromFile env change remoteTree)

/-- Builds one tree node per local change, keeping the change paired with its
(possibly skipped) node. -/
def buildNodes (env : Env) (remoteTree : List TreeNode) :
    List LocalChange → M (List (LocalChange × Option TreeNode))
  | [] => pure []
  | c :: rest => do
    let n ← createTreeNodeFromFileM env c remoteTree
    let ns ← buildNodes env remoteTree rest
    pure ((c, n) :: ns)

/-- Modelled from the spec: `FitPush.createCommitFromLocalUpdate` lives in
`src/fitPush.ts`, which is not among the provided sources.  Per §4.6 and its
use in `syncCompatibleChanges`: build a tree node per local change, drop the
skipped ones; with no surviving node there is nothing to commit (`null`);
otherwise create the tree (encrypting paths on submission) and a commit on
the resolved parent, returning the created commit id and the pushed
changes. -/
def createCommitFromLocalUpdate (env : Env) (lu : LocalUpdate)
    (remoteTree : List TreeNode) : M (Option (String × List LocalChange)) := do
  let pairs ← buildNodes env remoteTree lu.localChanges
  let treeNodes := pairs.filterMap (·.2)
  if treeNodes.length = 0 then
    pure none
  else do
    op env .createTree
    op env .createCommit
    pure (some (env.pushedCommitSha,
      pairs.filterMap (fun pn => if pn.2.isSome then some pn.1 else none)))

/-- Modelled from the spec: `FitPush.pushChangedFilesToRemote` lives in
`src/fitPush.ts`, which is not among the provided sources.  Per §4.6 and the
in-source decomposition in `syncCompatibleChanges`: fetch the base remote
tree, build and commit the new tree (nothing to push yields `null`), update
the branch ref, and re-fetch the remote tree fingerprints for the new
snapshot. -/
def pushChangedFilesToRemote (env : Env) (lu : LocalUpdate) :
    M (Option PushResult) := do
  op env .getTree
  let cr ← createCommitFromLocalUpdate env lu env.remoteTree
  match cr with
  | none => pure none
  | some (sha, pushed) => do
    op env .updateRef
    op env .getRemoteTreeSha
    pure (some ⟨pushed, sha, env.pushedRemoteTreeShaMap⟩)

/-- Modelled from the spec: `FitPull.prepareChangesToExecute` lives in
`src/fitPull.ts`, which is not among the provided sources.  Per §4.6 pull
algorithm: partition the remote changes into writes (ADDED/MODIFIED, fetching
and decrypting each blob) and deletes (REMOVED). -/
def prepareChangesToExecute (env : Env) :
    List RemoteChange → M (List (String × String) × List String)
  | [] => pure ([], [])
  | c :: rest =>
    match c.status with
    | .REMOVED => do
      let pr ← prepareChangesToExecute env rest
      pure (pr.1, c.path :: pr.2)
    | _ => do
      let content ← getBlobM env (c.currentSha.getD "")
      let pr ← prepareChangesToExecute env rest
      pure ((c.path, content) :: pr.1, pr.2)

/-- Modelled from the spec: `VaultOperations.updateLocalFiles` lives in
`src/vaultOps.ts`, which is not among the provided sources.  Applies all
writes, then all deletes, returning one `FileOpRecord` per mutation. -/
def writeAll (env : Env) : List (String × String) → M (List FileOpRecord)
  | [] => pure []
  | pc :: rest => do
    op env (.writeLocal pc.1 pc.2)
    let rs ← writeAll env rest
    pure (⟨pc.1, .changed⟩ :: rs)

/-- Deletes each listed path, recording one `FileOpRecord` per deletion. -/
def deleteAll (env : Env) : List String → M (List FileOpRecord)
  | [] => pure []
  | p :: rest => do
    op env (.deleteLocal p)
    let rs ← deleteAll env rest
    pure (⟨p, .deleted⟩ :: rs)

/-- `VaultOperations.updateLocalFiles` (modelled from the spec, see above). -/
def updateLocalFiles (env : Env) (addToLocal : List (String × String))
    (deleteFromLocal : List String) : M (List FileOpRecord) := do
  let ws ← writeAll env addToLocal
  let ds ← deleteAll env deleteFromLocal
  pure (ws ++ ds)

/-- Modelled from the spec: `FitPull.pullRemoteToLocal` lives in
`src/fitPull.ts`, which is not among the provided sources.  Per §4.6: prepare
and apply the remote changes locally, recompute the local fingerprints, and
persist the new snapshot through the single callback. -/
def pullRemoteToLocal (env : Env) (ru : RemoteUpdate) : M (List FileOpRecord) := do
  let pr ← prepareChangesToExecute env ru.remoteChanges
  let ops ← updateLocalFiles env pr.1 pr.2
  op env .computeLocalSha
  op env .save
  pure ops

/-- `FitSync.resolveConflicts`, resolving the clashes one by one (the source
awaits them with `Promise.all`). -/
def resolveList (env : Env) (latestRemoteTreeSha : List (String × String)) :
    List ClashStatus → M (List ConflictResolutionResult)
  | [] => pure []
  | clash :: rest => do
    let r ← resolveFileConflict env clash (shaLookup clash.path latestRemoteTreeSha)
    let rs ← resolveList env latestRemoteTreeSha rest
    pure (r :: rs)

/-- `FitSync.resolveConflicts`: aggregates the per-clash resolutions into
(`noConflict`, `unresolvedFiles`, `fileOpsRecord`). -/
def resolveConflicts (env : Env) (clashedFiles : List ClashStatus)
    (latestRemoteTreeSha : List (String × String)) :
    M (Bool × List ClashStatus × List FileOpRecord) := do
  let fileResolutions ← resolveList env latestRemoteTreeSha clashedFiles
  let unresolvedFiles := (clashedFiles.zip fileResolutions).filterMap
    (fun cr => if cr.2.noDiff then none else some cr.1)
  pure (fileResolutions.all (·.noDiff), unresolvedFiles,
    fileResolutions.filterMap (·.fileOp))

/-- `FitSync.syncCompatibleChanges`: prepare the pull, push the local changes
(per the in-source decomposition: fetch tree, create commit, update ref,
re-fetch fingerprints), apply the remote changes locally, then persist the
snapshot once. -/
def syncCompatibleChanges (env : Env) (lu : LocalUpdate) (ru : RemoteUpdate) :
    M (List FileOpRecord × List LocalChange) := do
  let pr ← prepareChangesToExecute env ru.remoteChanges
  op env .getTree
  let cr ← createCommitFromLocalUpdate env lu env.remoteTree
  let pushedChanges ← (match cr with
    | some sp => do
      op env .updateRef
      op env .getRemoteTreeSha
      pure sp.2
    | none => pure [])
  let localFileOpsRecord ← updateLocalFiles env pr.1 pr.2
  op env .computeLocalSha
  op env .save
  pure (localFileOpsRecord, pushedChanges)

/-- `FitSync.syncWithConflicts`: resolve the clashes first, filter what to
pull and push (everything local is pushed when conflicts remain), push, apply
the remaining remote changes locally, then persist the snapshot once. -/
def syncWithConflicts (env : Env) (localChanges : List LocalChange)
    (ru : RemoteUpdate) :
    M (List ClashStatus × List FileOpRecord × List LocalChange) := do
  let rc ← resolveConflicts env ru.clashedFiles ru.remoteTreeSha
  let noConflict := rc.1
  let unresolvedFiles := rc.2.1
  let fileOpsRecord := rc.2.2
  let remoteChangesToWrite :=
    if noConflict then
      ru.remoteChanges.filter (fun c => !(localChanges.any (fun l => l.path == c.path)))
    else
      ru.remoteChanges.filter (fun c => !(unresolvedFiles.any (fun l => l.path == c.path)))
  let localChangesToPush :=
    if noConflict then
      localChanges.filter (fun c => !(ru.remoteChanges.any (fun r => r.path == c.path)))
    else localChanges
  let pr ← prepareChangesToExecute env remoteChangesToWrite
  let pushResult ← pushChangedFilesToRemote env
    ⟨localChangesToPush, ru.latestRemoteCommitSha⟩
  let localFileOpsRecord ← updateLocalFiles env pr.1 pr.2
  op env .computeLocalSha
  op env .save
  pure (unresolvedFiles, localFileOpsRecord ++ fileOpsRecord,
    match pushResult with
    | some pushRes => pushRes.pushedChanges
    | none => [])

/-- Outcome of one `FitSync.sync` run, per terminal branch. -/
inductive SyncOutcome where
  | inSyncDone
  | savedCommitShaOnly
  | pulled (ops : List FileOpRecord)
  | pushed (ops : List LocalChange)
  | pushedNothing
  | compatible (localOps : List FileOpRecord) (remoteOps : List LocalChange)
  | clashed (unresolved : List ClashStatus) (localOps : List FileOpRecord)
      (remoteOps : List LocalChange)
deriving DecidableEq

/-- `FitSync.sync`: classify, then run the terminal branch; the
`onlyLocalChanged` branch persists the snapshot only when the push actually
created a commit. -/
def sync (st : FitState) (env : Env) : M SyncOutcome := do
  let pre ← performPreSyncChecks st env
  match pre with
  | .inSync => pure .inSyncDone
  | .other status ru localChanges _localTreeSha =>
    match status with
    | .onlyRemoteCommitShaChanged => do
      op env .save
      pure .savedCommitShaOnly
    | .onlyRemoteChanged => do
      let ops ← pullRemoteToLocal env ru
      pure (.pulled ops)
    | .onlyLocalChanged => do
      let pushResult ← pushChangedFilesToRemote env
        ⟨localChanges, ru.latestRemoteCommitSha⟩
      match pushResult with
      | some pushRes => do
        op env .save
        pure (.pushed pushRes.pushedChanges)
      | none => pure .pushedNothing
    | .localAndRemoteChangesCompatible => do
      let pr ← syncCompatibleChanges env ⟨localChanges, ru.latestRemoteCommitSha⟩ ru
      pure (.compatible pr.1 pr.2)
    | .localAndRemoteChangesClashed => do
      let r ← syncWithConflicts env localChanges ru
      pure (.clashed r.1 r.2.1 r.2.2)
    | .inSync => pure .inSyncDone

/-! ## Snapshot persistence discipline (C3 machinery) -/

/-- Remote or local mutations (as opposed to pure reads and the snapshot
save). -/
def isMutation : Call → Bool
  | .createBlob _ => true
  | .createTree => true
  | .createCommit => true
  | .updateRef => true
  | .writeLocal _ _ => true
  | .deleteLocal _ => true
  | .ensureFolder _ => true
  | _ => false

/-- Number of snapshot saves in a trace. -/
def saveCount (tr : List Call) : Nat := (tr.filter (fun c => c == Call.save)).length

/-- True when no mutation follows any snapshot save in the trace. -/
def noMutAfterSave : List Call → Bool
  | [] => true
  | c :: rest =>
    (if c == Call.save then rest.all (fun e => !isMutation e) else true) &&
      noMutAfterSave rest

theorem saveCount_append (a b : List Call) :
    saveCount (a ++ b) = saveCount a + saveCount b := by
  simp [saveCount, List.filter_append]

theorem saveCount_eq_zero {tr : List Call} (h : ∀ c ∈ tr, c ≠ Call.save) :
    saveCount tr = 0 := by
  simp only [saveCount, List.length_eq_zero, List.filter_eq_nil_iff]
  intro c hc
  simpa using h c hc

theorem noMutAfterSave_of_noSave {tr : List Call} (h : ∀ c ∈ tr, c ≠ Call.save) :
    noMutAfterSave tr = true := by
  induction tr with
  | nil => rfl
  | cons c rest ih =>
    have hc : (c == Call.save) = false := by
      simpa using h c (by simp)
    simp [noMutAfterSave, hc, ih (fun d hd => h d (by simp [hd]))]

theorem noMutAfterSave_append_left {a b : List Call}
    (h : ∀ c ∈ a, c ≠ Call.save) :
    noMutAfterSave (a ++ b) = noMutAfterSave b := by
  induction a with
  | nil => rfl
  | cons c rest ih =>
    have hc : (c == Call.save) = false := by
      simpa using h c (by simp)
    simp [noMutAfterSave, hc, ih (fun d hd => h d (by simp [hd]))]

/-- Snapshot discipline of a computation: at most one save is appended to the
trace, no mutation follows a save, and a thrown error means no save
happened. -/
def SnapOK {α : Type} (x : M α) : Prop :=
  ∀ s, ∃ ext, (x s).2.2 = s.2 ++ ext ∧ saveCount ext ≤ 1 ∧
    noMutAfterSave ext = true ∧
    (∀ e, (x s).1 = .error e → saveCount ext = 0)

/-- Abbreviation: the computation appends no save to the trace. -/
def NoSave {α : Type} (x : M α) : Prop := TraceOK (fun c => c ≠ Call.save) x

theorem snapOK_of_noSave {α : Type} {x : M α} (hx : NoSave x) : SnapOK x := by
  intro s
  rcases hx s with ⟨ext, h, g⟩
  exact ⟨ext, h, by simp [saveCount_eq_zero g], noMutAfterSave_of_noSave g,
    fun _ _ => saveCount_eq_zero g⟩

theorem snapOK_pure {α : Type} (a : α) : SnapOK (pure a : M α) :=
  snapOK_of_noSave (traceOK_pure _ a)

theorem snapOK_bind_noSave {α β : Type} {x : M α} {f : α → M β}
    (hx : NoSave x) (hf : ∀ a, SnapOK (f a)) : SnapOK (x >>= f) := by
  intro s
  rcases hx s with ⟨e1, h1, g1⟩
  rcases hxs : x s with ⟨r, s'⟩
  rw [hxs] at h1
  cases r with
  | ok a =>
    rcases hf a s' with ⟨e2, h2, hc2, hm2, he2⟩
    have hrun : (x >>= f) s = f a s' := by rw [bind_apply, hxs]
    refine ⟨e1 ++ e2, by rw [hrun, h2, h1, List.append_assoc], ?_, ?_, ?_⟩
    · rw [saveCount_append, saveCount_eq_zero g1]
      simpa using hc2
    · rw [noMutAfterSave_append_left g1]
      exact hm2
    · intro e he
      rw [saveCount_append, saveCount_eq_zero g1]
      have := he2 e (by rw [hrun] at he; exact he)
      simpa using this
  | error e0 =>
    have hrun : (x >>= f) s = (.error e0, s') := by rw [bind_apply, hxs]
    refine ⟨e1, by rw [hrun]; exact h1, ?_, noMutAfterSave_of_noSave g1, ?_⟩
    · simp [saveCount_eq_zero g1]
    · intro e _
      exact saveCount_eq_zero g1

theorem snapOK_bind_pure {α β : Type} {x : M α} (g : α → β) (hx : SnapOK x) :
    SnapOK (x >>= fun a => pure (g a)) := by
  intro s
  rcases hx s with ⟨ext, h, hc, hm, he⟩
  rcases hxs : x s with ⟨r, s'⟩
  rw [hxs] at h
  cases r with
  | ok a =>
    have hrun : (x >>= fun a => pure (g a)) s = (.ok (g a), s') := by
      rw [bind_apply, hxs]
      rfl
    exact ⟨ext, by rw [hrun]; exact h, hc, hm,
      fun e heq => absurd (hrun ▸ heq) (by simp)⟩
  | error e0 =>
    have hrun : (x >>= fun a => pure (g a)) s = (.error e0, s') := by
      rw [bind_apply, hxs]
    exact ⟨ext, by rw [hrun]; exact h, hc, hm,
      fun e _ => he e0 (by rw [hxs])⟩

theorem snapOK_save_pure {α : Type} (env : Env) (b : α) :
    SnapOK (op env Call.save >>= fun _ => pure b) := by
  intro s
  by_cases h : env.failAt = some s.1
  · have hrun : (op env Call.save >>= fun _ => pure b) s =
        (.error (), (s.1 + 1, s.2)) := by
      rw [bind_apply]
      simp [op, h]
    refine ⟨[], by rw [hrun]; simp, by simp [saveCount], rfl, fun _ _ => by simp [saveCount]⟩
  · have hrun : (op env Call.save >>= fun _ => pure b) s =
        (.ok b, (s.1 + 1, s.2 ++ [Call.save])) := by
      rw [bind_apply]
      simp [op, h, pure_apply]
    refine ⟨[Call.save], by rw [hrun], by simp [saveCount], by decide, ?_⟩
    intro e heq
    rw [hrun] at heq
    exact absurd heq (by simp)

theorem traceOK_mono {P Q : Call → Prop} (h : ∀ c, P c → Q c) {α : Type}
    {x : M α} (hx : TraceOK P x) : TraceOK Q x := by
  intro s
  rcases hx s with ⟨ext, he, hg⟩
  exact ⟨ext, he, fun c hc => h c (hg c hc)⟩

theorem noSave_op (env : Env) (c : Call) (hc : c ≠ Call.save) : NoSave (op env c) :=
  traceOK_op _ env c hc

theorem noSave_getBlobM (env : Env) (sha : String) : NoSave (getBlobM env sha) :=
  traceOK_bind (noSave_op env _ (by simp)) (fun _ => traceOK_pure _ _)

theorem noSave_resolveFileConflict (env : Env) (clash : ClashStatus)
    (sha : Option String) : NoSave (resolveFileConflict env clash sha) :=
  traceOK_mono (fun _ hc => hc.1) (resolveFileConflict_traceOK env clash sha)

theorem noSave_resolveList (env : Env) (ts : List (String × String)) :
    ∀ clashes, NoSave (resolveList env ts clashes) := by
  intro clashes
  induction clashes with
  | nil => exact traceOK_pure _ _
  | cons clash rest ih =>
    exact traceOK_bind (noSave_resolveFileConflict env clash _)
      (fun r => traceOK_bind ih (fun rs => traceOK_pure _ _))

theorem noSave_resolveConflicts (env : Env) (clashes : List ClashStatus)
    (ts : List (String × String)) : NoSave (resolveConflicts env clashes ts) :=
  traceOK_bind (noSave_resolveList env ts clashes) (fun _ => traceOK_pure _ _)

theorem noSave_createTreeNodeFromFileM (env : Env) (change : LocalChange)
    (remoteTree : List TreeNode) :
    NoSave (createTreeNodeFromFileM env change remoteTree) := by
  unfold createTreeNodeFromFileM
  split_ifs with h
  · exact traceOK_pure _ _
  · exact traceOK_bind (noSave_op env _ (by simp))
      (fun _ => traceOK_bind (noSave_op env _ (by simp))
        (fun _ => traceOK_pure _ _))

theorem noSave_buildNodes (env : Env) (remoteTree : List TreeNode) :
    ∀ changes, NoSave (buildNodes env remoteTree changes) := by
  intro changes
  induction changes with
  | nil => exact traceOK_pure _ _
  | cons c rest ih =>
    exact traceOK_bind (noSave_createTreeNodeFromFileM env c remoteTree)
      (fun n => traceOK_bind ih (fun ns => traceOK_pure _ _))

theorem noSave_createCommitFromLocalUpdate (env : Env) (lu : LocalUpdate)
    (remoteTree : List TreeNode) :
    NoSave (createCommitFromLocalUpdate env lu remoteTree) := by
  unfold createCommitFromLocalUpdate
  refine traceOK_bind (noSave_buildNodes env remoteTree lu.localChanges)
    (fun pairs => ?_)
  dsimp only
  split_ifs with h
  · exact traceOK_pure _ _
  · exact traceOK_bind (noSave_op env _ (by simp))
      (fun _ => traceOK_bind (noSave_op env _ (by simp))
        (fun _ => traceOK_pure _ _))

theorem noSave_pushChangedFilesToRemote (env : Env) (lu : LocalUpdate) :
    NoSave (pushChangedFilesToRemote env lu) := by
  unfold pushChangedFilesToRemote
  refine traceOK_bind (noSave_op env _ (by simp)) (fun _ => ?_)
  refine traceOK_bind (noSave_createCommitFromLocalUpdate env lu env.remoteTree)
    (fun cr => ?_)
  cases cr with
  | none => exact traceOK_pure _ _
  | some sp =>
    obtain ⟨sha, pushed⟩ := sp
    exact traceOK_bind (noSave_op env _ (by simp))
      (fun _ => traceOK_bind (noSave_op env _ (by simp))
        (fun _ => traceOK_pure _ _))

theorem noSave_prepareChangesToExecute (env : Env) :
    ∀ rcs, NoSave (prepareChangesToExecute env rcs) := by
  intro rcs
  induction rcs with
  | nil => exact traceOK_pure _ _
  | cons c rest ih =>
    show NoSave (prepareChangesToExecute env (c :: rest))
    rw [prepareChangesToExecute]
    cases c.status with
    | REMOVED => exact traceOK_bind ih (fun pr => traceOK_pure _ _)
    | ADDED =>
      exact traceOK_bind (noSave_getBlobM env _)
        (fun content => traceOK_bind ih (fun pr => traceOK_pure _ _))
    | MODIFIED =>
      exact traceOK_bind (noSave_getBlobM env _)
        (fun content => traceOK_bind ih (fun pr => traceOK_pure _ _))

theorem noSave_writeAll (env : Env) : ∀ adds, NoSave (writeAll env adds) := by
  intro adds
  induction adds with
  | nil => exact traceOK_pure _ _
  | cons pc rest ih =>
    exact traceOK_bind (noSave_op env _ (by simp))
      (fun _ => traceOK_bind ih (fun rs => traceOK_pure _ _))

theorem noSave_deleteAll (env : Env) : ∀ dels, NoSave (deleteAll env dels) := by
  intro dels
  induction dels with
  | nil => exact traceOK_pure _ _
  | cons p rest ih =>
    exact traceOK_bind (noSave_op env _ (by simp))
      (fun _ => traceOK_bind ih (fun rs => traceOK_pure _ _))

theorem noSave_updateLocalFiles (env : Env) (adds : List (String × String))
    (dels : List String) : NoSave (updateLocalFiles env adds dels) :=
  traceOK_bind (noSave_writeAll env adds)
    (fun _ => traceOK_bind (noSave_deleteAll env dels)
      (fun _ => traceOK_pure _ _))

theorem noSave_performPreSyncChecks (st : FitState) (env : Env) :
    NoSave (performPreSyncChecks st env) := by
  unfold performPreSyncChecks
  refine traceOK_bind (noSave_op env _ (by simp)) (fun _ => ?_)
  refine traceOK_bind (noSave_op env _ (by simp)) (fun _ => ?_)
  dsimp only
  split_ifs with h h1 h2 h3 h4 <;>
    first
      | exact traceOK_pure _ _
      | exact traceOK_bind (noSave_op env _ (by simp)) (fun _ => traceOK_pure _ _)

theorem snapOK_pullRemoteToLocal (env : Env) (ru : RemoteUpdate) :
    SnapOK (pullRemoteToLocal env ru) := by
  unfold pullRemoteToLocal
  refine snapOK_bind_noSave (noSave_prepareChangesToExecute env ru.remoteChanges)
    (fun pr => ?_)
  refine snapOK_bind_noSave (noSave_updateLocalFiles env pr.1 pr.2) (fun ops => ?_)
  refine snapOK_bind_noSave (noSave_op env _ (by simp)) (fun _ => ?_)
  exact snapOK_save_pure env ops

theorem snapOK_syncCompatibleChanges (env : Env) (lu : LocalUpdate)
    (ru : RemoteUpdate) : SnapOK (syncCompatibleChanges env lu ru) := by
  unfold syncCompatibleChanges
  refine snapOK_bind_noSave (noSave_prepareChangesToExecute env ru.remoteChanges)
    (fun pr => ?_)
  refine snapOK_bind_noSave (noSave_op env _ (by simp)) (fun _ => ?_)
  refine snapOK_bind_noSave (noSave_createCommitFromLocalUpdate env lu env.remoteTree)
    (fun cr => ?_)
  refine snapOK_bind_noSave ?_ (fun pushedChanges => ?_)
  · cases cr with
    | none => exact traceOK_pure _ _
    | some sp =>
      exact traceOK_bind (noSave_op env _ (by simp))
        (fun _ => traceOK_bind (noSave_op env _ (by simp))
          (fun _ => traceOK_pure _ _))
  · refine snapOK_bind_noSave (noSave_updateLocalFiles env pr.1 pr.2) (fun ops => ?_)
    refine snapOK_bind_noSave (noSave_op env _ (by simp)) (fun _ => ?_)
    exact snapOK_save_pure env (ops, pushedChanges)

theorem snapOK_syncWithConflicts (env : Env) (localChanges : List LocalChange)
    (ru : RemoteUpdate) : SnapOK (syncWithConflicts env localChanges ru) := by
  unfold syncWithConflicts
  refine snapOK_bind_noSave
    (noSave_resolveConflicts env ru.clashedFiles ru.remoteTreeSha) (fun rc => ?_)
  dsimp only
  refine snapOK_bind_noSave (noSave_prepareChangesToExecute env _) (fun pr => ?_)
  refine snapOK_bind_noSave (noSave_pushChangedFilesToRemote env _) (fun pushResult => ?_)
  refine snapOK_bind_noSave (noSave_updateLocalFiles env pr.1 pr.2) (fun ops => ?_)
  refine snapOK_bind_noSave (noSave_op env _ (by simp)) (fun _ => ?_)
  exact snapOK_save_pure env _

theorem snapOK_sync (st : FitState) (env : Env) : SnapOK (sync st env) := by
  unfold sync
  refine snapOK_bind_noSave (noSave_performPreSyncChecks st env) (fun pre => ?_)
  cases pre with
  | inSync => exact snapOK_pure _
  | other status ru localChanges localTreeSha =>
    cases status with
    | inSync => exact snapOK_pure _
    | onlyRemoteCommitShaChanged => exact snapOK_save_pure env _
    | onlyRemoteChanged => exact snapOK_bind_pure _ (snapOK_pullRemoteToLocal env ru)
    | onlyLocalChanged =>
      refine snapOK_bind_noSave (noSave_pushChangedFilesToRemote env _)
        (fun pushResult => ?_)
      cases pushResult with
      | some pushRes => exact snapOK_save_pure env _
      | none => exact snapOK_pure _
    | localAndRemoteChangesCompatible =>
      exact snapOK_bind_pure _ (snapOK_syncCompatibleChanges env _ ru)
    | localAndRemoteChangesClashed =>
      exact snapOK_bind_pure _ (snapOK_syncWithConflicts env localChanges ru)

/-- C3 (amended): over every sync run, the snapshot is persisted at most once,
the persistence call happens only after all remote and local mutations of the
executed branch (no mutation ever follows a save in the trace), and a failure
before the persistence call leaves the old snapshot intact (a run that throws
performs no save at all). -/
theorem sync_persists_snapshot_at_most_once (st : FitState) (env : Env) :
    saveCount (sync st env (0, [])).2.2 ≤ 1 ∧
    noMutAfterSave (sync st env (0, [])).2.2 = true ∧
    (∀ e, (sync st env (0, [])).1 = .error e →
      saveCount (sync st env (0, [])).2.2 = 0) := by
  rcases snapOK_sync st env (0, []) with ⟨ext, hext, hc, hm, he⟩
  rw [List.nil_append] at hext
  rw [hext]
  exact ⟨hc, hm, he⟩

/-- Snapshot whose only local change is the deletion of a file that does not
exist on the remote. -/
def stC3 : FitState where
  localSha := [("gone.md", "s1")]
  lastFetchedCommitSha := some "c0"
  lastFetchedRemoteSha := []

/-- Environment for `stC3`: remote commit unchanged, empty remote tree. -/
def envC3 : Env := { envBase with currentLocalSha := [], remoteCommitSha := "c0" }

/-- C3 (counterexample to the claim as stated): a successful terminal
`onlyLocalChanged` run whose push determines there is nothing to push
persists the snapshot zero times, not exactly once. -/
theorem sync_zero_saves_on_empty_push :
    (performPreSyncChecks stC3 envC3 (0, [])).1 =
      .ok (.other .onlyLocalChanged ⟨[], [], "c0", []⟩
        [⟨"gone.md", .deleted⟩] []) ∧
    (sync stC3 envC3 (0, [])).1 = .ok SyncOutcome.pushedNothing ∧
    saveCount (sync stC3 envC3 (0, [])).2.2 = 0 := by
  refine ⟨?_, ?_, ?_⟩ <;> rfl

/-- Environment that fails at the very first external call. -/
def envC3fail : Env := { envC3 with failAt := some 0 }

/-- Witness for C3's amended theorem: a successful run saves at most once, and
a run failing at its first call saves nothing. -/
theorem sync_persists_witness :
    saveCount (sync stWitness envInSync (0, [])).2.2 ≤ 1 ∧
    saveCount (sync stC3 envC3fail (0, [])).2.2 = 0 :=
  ⟨(sync_persists_snapshot_at_most_once stWitness envInSync).1,
   (sync_persists_snapshot_at_most_once stC3 envC3fail).2.2 () rfl⟩
